import Mathlib

/-!
Shallow embedding of the MACD first-green scanner (src/main.py).

Numeric values (pandas float columns) are modelled as rationals, so the EMA
recurrences are exact.  The Python state dict maps string keys either to an
integer candle timestamp (keys of the form symbol-4h) or to a boolean
escalation flag (keys of the form symbol-4h-strong); it is modelled as a
function from strings to an optional tagged value.  Network fetches are
modelled as oracle functions passed to the reconciler, with the empty list
standing for an empty or failed fetch (fetch_ohlcv returns an empty frame on
any failure).
-/

/-- A row of the OHLC frame as used by the core logic.  Only the time and
close columns are ever read by the indicator, detector and reconciler, so the
other float columns (open, high, low, volume, turnover) are omitted. -/
structure Candle where
  time : ℤ
  close : ℚ
deriving DecidableEq

/-- One step of the non-adjusted EMA recurrence of pandas
ewm(span, adjust=False).mean(): each output is (1-a)*previous + a*current. -/
def ewmGo (a : ℚ) : ℚ → List ℚ → List ℚ
  | _, [] => []
  | prev, x :: xs =>
    let y := (1 - a) * prev + a * x
    y :: ewmGo a y xs

/-- Non-adjusted exponential moving average with smoothing factor
a = 2/(span+1), seeded with the first value, as computed by
ewm(span, adjust=False).mean() in the source. -/
def ewm (span : ℕ) : List ℚ → List ℚ
  | [] => []
  | x :: xs => x :: ewmGo (2 / ((span : ℚ) + 1)) x xs

/-- Column ema_fast of the macd function. -/
def ema_fast (fast : ℕ) (close : List ℚ) : List ℚ := ewm fast close

/-- Column ema_slow of the macd function. -/
def ema_slow (slow : ℕ) (close : List ℚ) : List ℚ := ewm slow close

/-- Column macd: pointwise ema_fast - ema_slow. -/
def macd_line (fast slow : ℕ) (close : List ℚ) : List ℚ :=
  List.zipWith (fun a b => a - b) (ema_fast fast close) (ema_slow slow close)

/-- Column signal: EMA of the macd column with span sig. -/
def signal_line (fast slow sig : ℕ) (close : List ℚ) : List ℚ :=
  ewm sig (macd_line fast slow close)

/-- Column hist: pointwise macd - signal. -/
def hist_series (fast slow sig : ℕ) (close : List ℚ) : List ℚ :=
  List.zipWith (fun a b => a - b) (macd_line fast slow close) (signal_line fast slow sig close)

/-- Default MACD fast period (env MACD_FAST, default 12). -/
def MACD_FAST : ℕ := 12

/-- Default MACD slow period (env MACD_SLOW, default 26). -/
def MACD_SLOW : ℕ := 26

/-- Default MACD signal period (env MACD_SIGNAL, default 9). -/
def MACD_SIGNAL : ℕ := 9

/-- The hist column produced by macd(df) on a frame, read off its close
column with the configured periods. -/
def macd_hist (df : List Candle) : List ℚ :=
  hist_series MACD_FAST MACD_SLOW MACD_SIGNAL (df.map Candle.close)

/-- check_first_green(df): false when the frame has fewer than 3 rows,
otherwise true iff the hist value of the second-to-last row (iloc[-2]) is
strictly negative and that of the last row (iloc[-1]) is strictly positive.
The frame is represented by its hist column, which has one entry per row. -/
def check_first_green (hist : List ℚ) : Bool :=
  if hist.length < 3 then false
  else
    match hist.reverse with
    | b :: a :: _ => decide (a < 0) && decide (0 < b)
    | _ => false

/-- The INTERVALS table mapping timeframe names to provider interval codes. -/
def INTERVALS (tf : String) : ℕ :=
  if tf = "4h" then 240 else if tf = "1h" then 60 else if tf = "15m" then 15 else 0

/-- A value stored in the state dict: either an integer candle timestamp or a
boolean escalation flag. -/
inductive SVal where
  | i (n : ℤ)
  | b (v : Bool)
deriving DecidableEq

/-- Python truthiness of a stored value (int is truthy iff nonzero). -/
def truthy : SVal → Bool
  | .i n => decide (n ≠ 0)
  | .b v => v

/-- Python equality between a stored value and an integer; a bool compares
equal to its integer value (True == 1, False == 0). -/
def svalEqInt : SVal → ℤ → Bool
  | .i n, m => decide (n = m)
  | .b v, m => decide ((if v then (1 : ℤ) else 0) = m)

/-- The state dict: key-to-optional-value map. -/
def StateMap : Type := String → Option SVal

/-- The empty dict. -/
def emptyState : StateMap := fun _ => none

/-- Dict assignment state[k] = v. -/
def dictSet (s : StateMap) (k : String) (v : SVal) : StateMap :=
  fun q => if q = k then some v else s q

/-- Dict deletion state.pop(k, None). -/
def dictPop (s : StateMap) (k : String) : StateMap :=
  fun q => if q = k then none else s q

/-- base.update(delta): every key present in delta takes the value of delta,
keys absent from delta keep the value of base.  This is the merge the scan
orchestrator applies to each returned worker state. -/
def dictUpdate (base delta : StateMap) : StateMap :=
  fun q =>
    match delta q with
    | some v => some v
    | none => base q

/-- Primary dedup key for a symbol, the f-string symbol-4h. -/
def key4h (symbol : String) : String := symbol ++ "-4h"

/-- Escalation-flag key for a symbol, the f-string symbol-4h-strong. -/
def keyStrong (symbol : String) : String := symbol ++ "-4h-strong"

/-- A notification message; signal is the primary Signal message, strong the
STRONG SIGNAL message carrying the list of aligned confirmation timeframes. -/
inductive Msg where
  | signal (symbol : String)
  | strong (symbol : String) (aligned : List String)
deriving DecidableEq

/-- int(df.iloc[-1]["time"]): timestamp of the last candle of a frame. -/
def candleTimeOf (df : List Candle) : ℤ := (df.getLastD ⟨0, 0⟩).time

/-- The confirmation loop of process_symbol: the timeframes among 1h and 15m
whose fetched frame is non-empty (an empty fetch is skipped by continue) and
whose own MACD hist shows a first green. -/
def alignmentOf (fetch : String → ℕ → List Candle) (symbol : String) : List String :=
  (["1h", "15m"]).filter fun tf =>
    let dft := fetch symbol (INTERVALS tf)
    !dft.isEmpty && check_first_green (macd_hist dft)

/-- process_symbol(symbol, state, force_run): one reconciliation of one
symbol against a private copy of the state.  The candle fetches are passed in
as an oracle from (symbol, interval code) to the fetched frame, the empty
list standing for an empty or failed fetch. -/
def process_symbol (fetch : String → ℕ → List Candle) (symbol : String)
    (state : StateMap) (force_run : Bool) : StateMap × List Msg :=
  let df4h := fetch symbol (INTERVALS "4h")
  if df4h.isEmpty then (state, [])
  else if check_first_green (macd_hist df4h) then
    let last_time := (state (key4h symbol)).getD (SVal.i 0)
    let candle_time := candleTimeOf df4h
    if !svalEqInt last_time candle_time || force_run then
      (dictSet (dictSet state (key4h symbol) (SVal.i candle_time)) (keyStrong symbol) (SVal.b false),
       [Msg.signal symbol])
    else
      if !(alignmentOf fetch symbol).isEmpty
          && !truthy ((state (keyStrong symbol)).getD (SVal.b false)) then
        (dictSet state (keyStrong symbol) (SVal.b true),
         [Msg.strong symbol (alignmentOf fetch symbol)])
      else (state, [])
  else
    (dictPop state (keyStrong symbol), [])

/-- The pure core of one scanner cycle: every symbol is reconciled against
the snapshot taken at cycle start (scanner submits state.copy() for every
future before collecting any result), each returned state is merged into the
accumulator with dict.update, and every returned message is sent.  The list
order stands for one admissible completion order of the futures. -/
def scanner_cycle (fetch : String → ℕ → List Candle) (symbols : List String)
    (state0 : StateMap) (force_run : Bool) : StateMap × List Msg :=
  let outs := symbols.map fun sym => process_symbol fetch sym state0 force_run
  (outs.foldl (fun acc o => dictUpdate acc o.1) state0, (outs.map Prod.snd).flatten)

/-- The per-cycle inputs seen by successive reconciliations of one symbol:
the candle fetch oracle of that cycle and the force flag. -/
structure CycleObs where
  fetch : String → ℕ → List Candle
  force_run : Bool

/-- A sequence of reconciliations of one symbol, each feeding its output
state to the next, with all emitted messages collected in order. -/
def runSteps (symbol : String) : StateMap → List CycleObs → StateMap × List Msg
  | st, [] => (st, [])
  | st, ob :: rest =>
    let out := process_symbol ob.fetch symbol st ob.force_run
    let next := runSteps symbol out.1 rest
    (next.1, out.2 ++ next.2)

/-- Three-candle frame whose close column is 100, 90, 200 and whose last
candle closes at time t: its MACD(12,26,9) hist column ends negative then
positive, so it shows a first green. -/
def eventDf (t : ℤ) : List Candle := [⟨t - 2, 100⟩, ⟨t - 1, 90⟩, ⟨t, 200⟩]

/-- Three-candle frame with close column 100, 110, 105: its MACD(12,26,9)
hist column ends positive at the second-to-last row, so no first green. -/
def noEventDf : List Candle := [⟨0, 100⟩, ⟨1, 110⟩, ⟨2, 105⟩]

/-- Fetch oracle: the 4h interval yields eventDf 1000, every other interval
an empty frame. -/
def fetchSignalOnly : String → ℕ → List Candle :=
  fun _ iv => if iv = 240 then eventDf 1000 else []

/-- Fetch oracle: 4h yields eventDf 1000, 1h yields eventDf 500 (its own
first green), 15m an empty frame. -/
def fetchConfirm : String → ℕ → List Candle :=
  fun _ iv => if iv = 240 then eventDf 1000 else if iv = 60 then eventDf 500 else []

/-- Fetch oracle: 4h yields noEventDf, every other interval an empty frame. -/
def fetchNoEvent : String → ℕ → List Candle :=
  fun _ iv => if iv = 240 then noEventDf else []

/-- Fetch oracle: 4h yields eventDf 2000, every other interval an empty
frame. -/
def fetchNew : String → ℕ → List Candle :=
  fun _ iv => if iv = 240 then eventDf 2000 else []

/-- Fetch oracle: 4h yields eventDf 2000, 1h yields eventDf 500, 15m an
empty frame. -/
def fetchNewConfirm : String → ℕ → List Candle :=
  fun _ iv => if iv = 240 then eventDf 2000 else if iv = 60 then eventDf 500 else []

/-- Fetch oracle: the 4h interval of ABCUSDT yields eventDf 1000; every
fetch of any other symbol, in particular EMPTYUSDT, is empty. -/
def fetchMixed : String → ℕ → List Candle :=
  fun s iv => if s = "ABCUSDT" then (if iv = 240 then eventDf 1000 else []) else []

/-- Splitting off the last two elements of a list of length at least two. -/
lemma exists_two_last (h : List ℚ) (hl : 2 ≤ h.length) :
    ∃ pre a b, h = pre ++ [a, b] := by
  match hr : h.reverse with
  | [] =>
    rw [← h.length_reverse, hr] at hl
    simp at hl
  | [x] =>
    rw [← h.length_reverse, hr] at hl
    simp at hl
  | b :: a :: t =>
    refine ⟨t.reverse, a, b, ?_⟩
    rw [← h.reverse_reverse, hr]
    simp

/-- The detector on a list ending in a and b with a non-empty prefix reads
exactly the signs of a and b. -/
lemma cfg_append (pre : List ℚ) (a b : ℚ) (hp : 1 ≤ pre.length) :
    check_first_green (pre ++ [a, b]) = (decide (a < 0) && decide (0 < b)) := by
  have h3 : ¬ (pre ++ [a, b]).length < 3 := by
    simp only [List.length_append, List.length_cons, List.length_nil]
    omega
  have hr : (pre ++ [a, b]).reverse = b :: a :: pre.reverse := by simp
  simp only [check_first_green, if_neg h3, hr]

/-- C1.  The Event Detector returns true exactly on frames of length at
least 3 whose last two hist values are strictly negative then strictly
positive; any frame of fewer than 3 rows yields false, and a zero at either
of the two inspected positions yields false. -/
theorem C1_check_first_green_characterisation (h : List ℚ) :
    (check_first_green h = true ↔
      3 ≤ h.length ∧ ∃ pre a b, h = pre ++ [a, b] ∧ a < 0 ∧ 0 < b)
    ∧ (h.length < 3 → check_first_green h = false)
    ∧ (∀ pre a b, h = pre ++ [a, b] → (a = 0 ∨ b = 0) → check_first_green h = false) := by
  refine ⟨?_, ?_, ?_⟩
  · constructor
    · intro ht
      by_cases hl : h.length < 3
      · simp [check_first_green, hl] at ht
      · refine ⟨by omega, ?_⟩
        obtain ⟨pre, a, b, hdec⟩ := exists_two_last h (by omega)
        have hp : 1 ≤ pre.length := by
          have := congrArg List.length hdec
          simp only [List.length_append, List.length_cons, List.length_nil] at this
          omega
        rw [hdec, cfg_append pre a b hp] at ht
        simp only [Bool.and_eq_true, decide_eq_true_eq] at ht
        exact ⟨pre, a, b, hdec, ht.1, ht.2⟩
    · rintro ⟨hl, pre, a, b, hdec, ha, hb⟩
      have hp : 1 ≤ pre.length := by
        have := congrArg List.length hdec
        simp only [List.length_append, List.length_cons, List.length_nil] at this
        omega
      rw [hdec, cfg_append pre a b hp]
      simp [ha, hb]
  · intro hl
    simp [check_first_green, hl]
  · intro pre a b hdec hz
    by_cases hp : 1 ≤ pre.length
    · rw [hdec, cfg_append pre a b hp]
      rcases hz with hz | hz <;> simp [hz]
    · have hl : h.length < 3 := by
        have := congrArg List.length hdec
        simp only [List.length_append, List.length_cons, List.length_nil] at this
        omega
      simp [check_first_green, hl]

/-- Witness for C1: a frame with hist ending in -1 then 1 is detected, a
one-row frame is not, and a frame whose last value is zero is not. -/
theorem C1_witness :
    check_first_green [0, -1, 1] = true
    ∧ check_first_green [1] = false
    ∧ check_first_green [1, -1, 0] = false := by
  refine ⟨?_, ?_, ?_⟩
  · exact (C1_check_first_green_characterisation [0, -1, 1]).1.mpr
      ⟨by norm_num, [0], -1, 1, by norm_num, by norm_num, by norm_num⟩
  · exact (C1_check_first_green_characterisation [1]).2.1 (by norm_num)
  · exact (C1_check_first_green_characterisation [1, -1, 0]).2.2 [1] (-1) 0
      (by norm_num) (Or.inr rfl)

/-- C9.  The verdict of the Event Detector depends only on the last two hist
values: two frames of length at least 3 that agree on the last and the
second-to-last hist value receive the same verdict, whatever their earlier
values are. -/
theorem C9_detector_two_bar_locality (h1 h2 : List ℚ)
    (hl1 : 3 ≤ h1.length) (hl2 : 3 ≤ h2.length)
    (hlast : h1.getLast? = h2.getLast?)
    (hprev : h1.dropLast.getLast? = h2.dropLast.getLast?) :
    check_first_green h1 = check_first_green h2 := by
  obtain ⟨p1, a1, b1, hd1⟩ := exists_two_last h1 (by omega)
  obtain ⟨p2, a2, b2, hd2⟩ := exists_two_last h2 (by omega)
  have hp1 : 1 ≤ p1.length := by
    have := congrArg List.length hd1
    simp only [List.length_append, List.length_cons, List.length_nil] at this
    omega
  have hp2 : 1 ≤ p2.length := by
    have := congrArg List.length hd2
    simp only [List.length_append, List.length_cons, List.length_nil] at this
    omega
  have hb : b1 = b2 := by
    rw [hd1, hd2] at hlast
    have e1 : p1 ++ [a1, b1] = (p1 ++ [a1]) ++ [b1] := by simp
    have e2 : p2 ++ [a2, b2] = (p2 ++ [a2]) ++ [b2] := by simp
    rw [e1, e2, List.getLast?_concat, List.getLast?_concat] at hlast
    exact Option.some.inj hlast
  have ha : a1 = a2 := by
    rw [hd1, hd2] at hprev
    have e1 : p1 ++ [a1, b1] = (p1 ++ [a1]) ++ [b1] := by simp
    have e2 : p2 ++ [a2, b2] = (p2 ++ [a2]) ++ [b2] := by simp
    rw [e1, e2, List.dropLast_concat, List.dropLast_concat,
      List.getLast?_concat, List.getLast?_concat] at hprev
    exact Option.some.inj hprev
  rw [hd1, hd2, cfg_append p1 a1 b1 hp1, cfg_append p2 a2 b2 hp2, ha, hb]

/-- Witness for C9: frames with different prefixes but the same last two
hist values get the same verdict. -/
theorem C9_witness :
    check_first_green [5, -1, 2] = check_first_green [9, 9, -1, 2] := by
  refine C9_detector_two_bar_locality [5, -1, 2] [9, 9, -1, 2]
    (by norm_num) (by norm_num) (by norm_num) ?_
  norm_num

/-- ewmGo preserves length. -/
lemma ewmGo_length (a : ℚ) : ∀ (prev : ℚ) (xs : List ℚ),
    (ewmGo a prev xs).length = xs.length
  | _, [] => rfl
  | prev, x :: xs => by
    simp only [ewmGo, List.length_cons]
    rw [ewmGo_length a _ xs]

/-- ewm preserves length. -/
lemma ewm_length (s : ℕ) : ∀ xs : List ℚ, (ewm s xs).length = xs.length
  | [] => rfl
  | x :: xs => by
    simp only [ewm, List.length_cons]
    rw [ewmGo_length]

/-- Length of macd_line. -/
lemma macd_line_length (fast slow : ℕ) (close : List ℚ) :
    (macd_line fast slow close).length = close.length := by
  simp [macd_line, ema_fast, ema_slow, ewm_length]

/-- Length of signal_line. -/
lemma signal_line_length (fast slow sig : ℕ) (close : List ℚ) :
    (signal_line fast slow sig close).length = close.length := by
  simp [signal_line, ewm_length, macd_line_length]

/-- Length of hist_series. -/
lemma hist_series_length (fast slow sig : ℕ) (close : List ℚ) :
    (hist_series fast slow sig close).length = close.length := by
  simp [hist_series, macd_line_length, signal_line_length]

/-- getD through a pointwise subtraction of two lists. -/
lemma getD_zipWith_sub : ∀ (as bs : List ℚ) (i : ℕ), i < as.length → i < bs.length →
    (List.zipWith (fun x y => x - y) as bs).getD i 0 = as.getD i 0 - bs.getD i 0
  | [], _, _, ha, _ => by simp at ha
  | _ :: _, [], _, _, hb => by simp at hb
  | a :: as, b :: bs, 0, _, _ => rfl
  | a :: as, b :: bs, i + 1, ha, hb => by
    simp only [List.zipWith_cons_cons, List.getD_cons_succ]
    exact getD_zipWith_sub as bs i (by simpa using ha) (by simpa using hb)

/-- First output of ewmGo on a non-empty input. -/
lemma ewmGo_zero (a prev x : ℚ) (xs : List ℚ) :
    (ewmGo a prev (x :: xs)).getD 0 0 = (1 - a) * prev + a * x := rfl

/-- ewmGo satisfies the EMA recurrence at every later position. -/
lemma ewmGo_succ (a : ℚ) : ∀ (xs : List ℚ) (prev : ℚ) (i : ℕ), i + 1 < xs.length →
    (ewmGo a prev xs).getD (i + 1) 0
      = (1 - a) * (ewmGo a prev xs).getD i 0 + a * xs.getD (i + 1) 0
  | [], _, _, h => by simp at h
  | x :: xs, prev, 0, h => by
    cases xs with
    | nil => simp at h
    | cons z zs => simp [ewmGo]
  | x :: xs, prev, i + 1, h => by
    simp only [ewmGo, List.getD_cons_succ]
    exact ewmGo_succ a xs _ i (by simpa using h)

/-- ewm is seeded with the first input value. -/
lemma ewm_zero (s : ℕ) (c : List ℚ) (hc : c ≠ []) :
    (ewm s c).getD 0 0 = c.getD 0 0 := by
  cases c with
  | nil => simp at hc
  | cons x xs => rfl

/-- ewm satisfies the non-adjusted EMA recurrence with smoothing factor
2/(span+1) at every position after the seed. -/
lemma ewm_succ (s : ℕ) (c : List ℚ) (i : ℕ) (h : i + 1 < c.length) :
    (ewm s c).getD (i + 1) 0
      = (1 - 2 / ((s : ℚ) + 1)) * (ewm s c).getD i 0
        + (2 / ((s : ℚ) + 1)) * c.getD (i + 1) 0 := by
  cases c with
  | nil => simp at h
  | cons x xs =>
    cases i with
    | zero =>
      cases xs with
      | nil => simp at h
      | cons z zs => simp [ewm, ewmGo]
    | succ i =>
      simp only [ewm, List.getD_cons_succ]
      exact ewmGo_succ _ xs x i (by simp only [List.length_cons] at h; omega)

/-- C8.  The Indicator Engine: every derived column has exactly the length
of the input (empty on empty input); macd is pointwise ema_fast minus
ema_slow; the signal line is the non-adjusted EMA of the macd column with
span sig; hist is pointwise macd minus signal; every EMA column is seeded
with the first input value and obeys the non-adjusted recurrence with
smoothing factor 2/(span+1); and the computation is deterministic. -/
theorem C8_indicator_engine (fast slow sig : ℕ) (close : List ℚ) :
    ((ema_fast fast close).length = close.length
      ∧ (ema_slow slow close).length = close.length
      ∧ (macd_line fast slow close).length = close.length
      ∧ (signal_line fast slow sig close).length = close.length
      ∧ (hist_series fast slow sig close).length = close.length)
    ∧ (close = [] → hist_series fast slow sig close = [])
    ∧ (∀ i, i < close.length →
        (macd_line fast slow close).getD i 0
          = (ema_fast fast close).getD i 0 - (ema_slow slow close).getD i 0)
    ∧ signal_line fast slow sig close = ewm sig (macd_line fast slow close)
    ∧ (∀ i, i < close.length →
        (hist_series fast slow sig close).getD i 0
          = (macd_line fast slow close).getD i 0 - (signal_line fast slow sig close).getD i 0)
    ∧ (∀ (s : ℕ) (c : List ℚ), c ≠ [] → (ewm s c).getD 0 0 = c.getD 0 0)
    ∧ (∀ (s : ℕ) (c : List ℚ) (i : ℕ), i + 1 < c.length →
        (ewm s c).getD (i + 1) 0
          = (1 - 2 / ((s : ℚ) + 1)) * (ewm s c).getD i 0
            + (2 / ((s : ℚ) + 1)) * c.getD (i + 1) 0)
    ∧ (∀ close2, close = close2 →
        hist_series fast slow sig close = hist_series fast slow sig close2) := by
  refine ⟨⟨?_, ?_, ?_, ?_, ?_⟩, ?_, ?_, rfl, ?_, ewm_zero, ewm_succ, ?_⟩
  · simp [ema_fast, ewm_length]
  · simp [ema_slow, ewm_length]
  · exact macd_line_length fast slow close
  · exact signal_line_length fast slow sig close
  · exact hist_series_length fast slow sig close
  · intro h
    subst h
    rfl
  · intro i hi
    exact getD_zipWith_sub _ _ i
      (by simp [ema_fast, ewm_length]; omega)
      (by simp [ema_slow, ewm_length]; omega)
  · intro i hi
    exact getD_zipWith_sub _ _ i
      (by rw [macd_line_length]; omega)
      (by rw [signal_line_length]; omega)
  · intro close2 h
    rw [h]

/-- Witness for C8 at periods 12, 26, 9 and close column 100, 90, 200. -/
theorem C8_witness :
    (hist_series 12 26 9 [100, 90, 200]).length = ([100, 90, 200] : List ℚ).length
    ∧ (macd_line 12 26 [100, 90, 200]).getD 1 0
        = (ema_fast 12 [100, 90, 200]).getD 1 0 - (ema_slow 26 [100, 90, 200]).getD 1 0
    ∧ (ewm 9 [100, 90, 200]).getD 0 0 = ([100, 90, 200] : List ℚ).getD 0 0
    ∧ (ewm 9 [100, 90, 200]).getD 1 0
        = (1 - 2 / ((9 : ℚ) + 1)) * (ewm 9 [100, 90, 200]).getD 0 0
          + (2 / ((9 : ℚ) + 1)) * ([100, 90, 200] : List ℚ).getD 1 0 := by
  have h := C8_indicator_engine 12 26 9 [100, 90, 200]
  exact ⟨h.1.2.2.2.2, h.2.2.1 1 (by norm_num), h.2.2.2.2.2.1 9 [100, 90, 200] (by decide),
    h.2.2.2.2.2.2.1 9 [100, 90, 200] 0 (by norm_num)⟩

/-- The two state keys of one symbol are distinct (their lengths differ). -/
lemma key4h_ne_keyStrong (symbol : String) : key4h symbol ≠ keyStrong symbol := by
  intro h
  have h2 := congrArg String.length h
  simp only [key4h, keyStrong, String.length_append] at h2
  have h3 : ("-4h" : String).length = 3 := by decide
  have h4 : ("-4h-strong" : String).length = 10 := by decide
  rw [h3, h4] at h2
  omega

/-- A frame whose MACD hist shows a first green has at least 3 rows, so it
is not empty. -/
lemma event_not_isEmpty (df : List Candle)
    (h : check_first_green (macd_hist df) = true) : df.isEmpty = false := by
  cases df with
  | nil => simp [macd_hist, hist_series, macd_line, ema_fast, ema_slow, signal_line, ewm,
      check_first_green] at h
  | cons c cs => rfl

/-- Branch of process_symbol taken when the primary fetch is empty. -/
lemma process_symbol_empty_case (fetch : String → ℕ → List Candle) (symbol : String)
    (st : StateMap) (force : Bool) (h : fetch symbol (INTERVALS "4h") = []) :
    process_symbol fetch symbol st force = (st, []) := by
  simp [process_symbol, h]

/-- Branch of process_symbol taken when the primary fetch is non-empty but
shows no first green: the escalation key is popped and nothing is emitted. -/
lemma process_symbol_noevent_case (fetch : String → ℕ → List Candle) (symbol : String)
    (st : StateMap) (force : Bool)
    (hne : (fetch symbol (INTERVALS "4h")).isEmpty = false)
    (hev : check_first_green (macd_hist (fetch symbol (INTERVALS "4h"))) = false) :
    process_symbol fetch symbol st force = (dictPop st (keyStrong symbol), []) := by
  simp [process_symbol, hne, hev]

/-- Branch of process_symbol taken on a primary event at a new candle time
or under force: the Signal message and the two state writes. -/
lemma process_symbol_signal_case (fetch : String → ℕ → List Candle) (symbol : String)
    (st : StateMap) (force : Bool)
    (hev : check_first_green (macd_hist (fetch symbol (INTERVALS "4h"))) = true)
    (hcond : (!svalEqInt ((st (key4h symbol)).getD (SVal.i 0))
        (candleTimeOf (fetch symbol (INTERVALS "4h"))) || force) = true) :
    process_symbol fetch symbol st force =
      (dictSet (dictSet st (key4h symbol)
          (SVal.i (candleTimeOf (fetch symbol (INTERVALS "4h"))))) (keyStrong symbol) (SVal.b false),
       [Msg.signal symbol]) := by
  have hne := event_not_isEmpty _ hev
  simp only [process_symbol, hne, Bool.false_eq_true, if_false, hev, if_true, hcond]

/-- Branch of process_symbol taken on a primary event at the already
reported candle time without force: the confirmation evaluation. -/
lemma process_symbol_confirm_case (fetch : String → ℕ → List Candle) (symbol : String)
    (st : StateMap) (force : Bool)
    (hev : check_first_green (macd_hist (fetch symbol (INTERVALS "4h"))) = true)
    (hcond : (!svalEqInt ((st (key4h symbol)).getD (SVal.i 0))
        (candleTimeOf (fetch symbol (INTERVALS "4h"))) || force) = false) :
    process_symbol fetch symbol st force =
      if !(alignmentOf fetch symbol).isEmpty
          && !truthy ((st (keyStrong symbol)).getD (SVal.b false)) then
        (dictSet st (keyStrong symbol) (SVal.b true),
         [Msg.strong symbol (alignmentOf fetch symbol)])
      else (st, []) := by
  have hne := event_not_isEmpty _ hev
  simp only [process_symbol, hne, Bool.false_eq_true, if_false, hev, if_true, hcond]

/-- Interval code of the primary timeframe. -/
lemma INTERVALS_4h : INTERVALS "4h" = 240 := by simp [INTERVALS]

/-- Interval code of the 1h confirmation timeframe. -/
lemma INTERVALS_1h : INTERVALS "1h" = 60 := by simp [INTERVALS]

/-- Interval code of the 15m confirmation timeframe. -/
lemma INTERVALS_15m : INTERVALS "15m" = 15 := by simp [INTERVALS]

/-- The frame eventDf t shows a first green under MACD(12,26,9). -/
lemma eventDf_green (t : ℤ) : check_first_green (macd_hist (eventDf t)) = true := by
  norm_num [eventDf, macd_hist, MACD_FAST, MACD_SLOW, MACD_SIGNAL, hist_series, macd_line,
    signal_line, ema_fast, ema_slow, ewm, ewmGo, check_first_green]

/-- The last candle of eventDf t closes at time t. -/
lemma eventDf_time (t : ℤ) : candleTimeOf (eventDf t) = t := rfl

/-- eventDf t is a non-empty frame. -/
lemma eventDf_isEmpty (t : ℤ) : (eventDf t).isEmpty = false := rfl

/-- The frame noEventDf shows no first green under MACD(12,26,9). -/
lemma noEventDf_nogreen : check_first_green (macd_hist noEventDf) = false := by
  norm_num [noEventDf, macd_hist, MACD_FAST, MACD_SLOW, MACD_SIGNAL, hist_series, macd_line,
    signal_line, ema_fast, ema_slow, ewm, ewmGo, check_first_green]

/-- C2.  On a primary first-green event: a candle time that differs from the
stored last-reported time (default 0 if the key is absent), or a set force
flag, emits exactly the one primary Signal message and writes the candle
time and a cleared escalation flag; with an equal stored time and no force,
no primary Signal message is emitted. -/
theorem C2_primary_signal_dedup (fetch : String → ℕ → List Candle) (symbol : String)
    (st : StateMap) (force : Bool)
    (hev : check_first_green (macd_hist (fetch symbol (INTERVALS "4h"))) = true) :
    (svalEqInt ((st (key4h symbol)).getD (SVal.i 0))
        (candleTimeOf (fetch symbol (INTERVALS "4h"))) = false ∨ force = true →
      (process_symbol fetch symbol st force).2 = [Msg.signal symbol]
      ∧ (process_symbol fetch symbol st force).1 (key4h symbol)
          = some (SVal.i (candleTimeOf (fetch symbol (INTERVALS "4h"))))
      ∧ (process_symbol fetch symbol st force).1 (keyStrong symbol) = some (SVal.b false))
    ∧ (svalEqInt ((st (key4h symbol)).getD (SVal.i 0))
        (candleTimeOf (fetch symbol (INTERVALS "4h"))) = true → force = false →
      ∀ s, Msg.signal s ∉ (process_symbol fetch symbol st force).2) := by
  constructor
  · intro h
    have hcond : (!svalEqInt ((st (key4h symbol)).getD (SVal.i 0))
        (candleTimeOf (fetch symbol (INTERVALS "4h"))) || force) = true := by
      rcases h with h | h <;> simp [h]
    rw [process_symbol_signal_case fetch symbol st force hev hcond]
    refine ⟨rfl, ?_, ?_⟩
    · simp [dictSet, key4h_ne_keyStrong symbol]
    · simp [dictSet]
  · intro heq hf s
    have hcond : (!svalEqInt ((st (key4h symbol)).getD (SVal.i 0))
        (candleTimeOf (fetch symbol (INTERVALS "4h"))) || force) = false := by
      simp [heq, hf]
    rw [process_symbol_confirm_case fetch symbol st force hev hcond]
    split <;> simp

/-- Witness for C2: a symbol with no stored state and a first green at
candle time 1000 gets exactly one Signal, the stored time 1000 and a false
escalation flag. -/
theorem C2_witness :
    (process_symbol fetchSignalOnly "BTCUSDT" emptyState false).2 = [Msg.signal "BTCUSDT"]
    ∧ (process_symbol fetchSignalOnly "BTCUSDT" emptyState false).1 (key4h "BTCUSDT")
        = some (SVal.i 1000)
    ∧ (process_symbol fetchSignalOnly "BTCUSDT" emptyState false).1 (keyStrong "BTCUSDT")
        = some (SVal.b false) := by
  have hf4 : fetchSignalOnly "BTCUSDT" (INTERVALS "4h") = eventDf 1000 := by
    simp [fetchSignalOnly, INTERVALS]
  have hev : check_first_green (macd_hist (fetchSignalOnly "BTCUSDT" (INTERVALS "4h"))) = true := by
    rw [hf4]; exact eventDf_green 1000
  have h := (C2_primary_signal_dedup fetchSignalOnly "BTCUSDT" emptyState false hev).1
    (Or.inl (by rw [hf4]; simp [emptyState, svalEqInt, eventDf_time]))
  rw [hf4] at h
  exact h

/-- C10.  A reconciliation of one symbol leaves every state key other than
the two keys of that symbol untouched. -/
theorem C10_other_keys_untouched (fetch : String → ℕ → List Candle) (symbol : String)
    (st : StateMap) (force : Bool) (k : String)
    (h1 : k ≠ key4h symbol) (h2 : k ≠ keyStrong symbol) :
    (process_symbol fetch symbol st force).1 k = st k := by
  by_cases he : (fetch symbol (INTERVALS "4h")).isEmpty = true
  · have he2 : fetch symbol (INTERVALS "4h") = [] := by simpa [List.isEmpty_iff] using he
    rw [process_symbol_empty_case fetch symbol st force he2]
  · have hne : (fetch symbol (INTERVALS "4h")).isEmpty = false := by simpa using he
    by_cases hev : check_first_green (macd_hist (fetch symbol (INTERVALS "4h"))) = true
    · by_cases hcond : (!svalEqInt ((st (key4h symbol)).getD (SVal.i 0))
          (candleTimeOf (fetch symbol (INTERVALS "4h"))) || force) = true
      · rw [process_symbol_signal_case fetch symbol st force hev hcond]
        simp [dictSet, h1, h2]
      · have hcond2 : (!svalEqInt ((st (key4h symbol)).getD (SVal.i 0))
            (candleTimeOf (fetch symbol (INTERVALS "4h"))) || force) = false := by
          simpa using hcond
        rw [process_symbol_confirm_case fetch symbol st force hev hcond2]
        split
        · simp [dictSet, h2]
        · rfl
    · have hev2 : check_first_green (macd_hist (fetch symbol (INTERVALS "4h"))) = false := by
        simpa using hev
      rw [process_symbol_noevent_case fetch symbol st force hne hev2]
      simp [dictPop, h2]

/-- Witness for C10: reconciling BTCUSDT does not move the key of another
instrument. -/
theorem C10_witness :
    (process_symbol fetchSignalOnly "BTCUSDT" emptyState false).1 "ETHUSDT-4h"
      = emptyState "ETHUSDT-4h" := by
  refine C10_other_keys_untouched fetchSignalOnly "BTCUSDT" emptyState false "ETHUSDT-4h" ?_ ?_
  · simp [key4h]
  · simp [keyStrong]

/-- C4.  The merge of worker states is right-biased: a key present in the
delta takes the value of the delta, a key absent from the delta keeps the
value of the base, and two deltas with disjoint key sets can be applied in
either order with the same resulting map. -/
theorem C4_merge_right_biased :
    (∀ (base delta : StateMap) (k : String) (v : SVal),
        delta k = some v → dictUpdate base delta k = some v)
    ∧ (∀ (base delta : StateMap) (k : String),
        delta k = none → dictUpdate base delta k = base k)
    ∧ (∀ (s d1 d2 : StateMap), (∀ k, d1 k = none ∨ d2 k = none) →
        dictUpdate (dictUpdate s d1) d2 = dictUpdate (dictUpdate s d2) d1) := by
  refine ⟨?_, ?_, ?_⟩
  · intro base delta k v h
    simp [dictUpdate, h]
  · intro base delta k h
    simp [dictUpdate, h]
  · intro s d1 d2 hdisj
    funext k
    rcases hdisj k with h | h
    · cases hd : d2 k <;> simp [dictUpdate, h, hd]
    · cases hd : d1 k <;> simp [dictUpdate, h, hd]

/-- Witness for C4 on concrete one-key dicts with disjoint keys. -/
theorem C4_witness :
    dictUpdate emptyState (dictSet emptyState "BTCUSDT-4h" (SVal.i 5)) "BTCUSDT-4h"
        = some (SVal.i 5)
    ∧ dictUpdate (dictSet emptyState "BTCUSDT-4h" (SVal.i 7)) emptyState "BTCUSDT-4h"
        = some (SVal.i 7)
    ∧ dictUpdate (dictUpdate emptyState (dictSet emptyState "AUSDT-4h" (SVal.i 1)))
          (dictSet emptyState "BUSDT-4h" (SVal.i 2))
        = dictUpdate (dictUpdate emptyState (dictSet emptyState "BUSDT-4h" (SVal.i 2)))
          (dictSet emptyState "AUSDT-4h" (SVal.i 1)) := by
  refine ⟨C4_merge_right_biased.1 _ _ _ _ (by simp [dictSet]),
    C4_merge_right_biased.2.1 _ _ _ rfl,
    C4_merge_right_biased.2.2 _ _ _ ?_⟩
  intro k
  by_cases hk : k = "AUSDT-4h"
  · right
    subst hk
    simp [dictSet, emptyState]
  · left
    simp [dictSet, emptyState, hk]

/-- C5.  On a primary event at the already reported candle time without
force: exactly one STRONG SIGNAL message listing the aligned confirmation
timeframes is emitted, and the escalation flag set, iff the alignment list
is non-empty and the stored escalation flag does not read true; otherwise
state and messages are unchanged.  A confirmation timeframe is aligned iff
its fetch is non-empty and its own hist shows a first green, so an empty or
failed fetch only excludes that timeframe. -/
theorem C5_escalation (fetch : String → ℕ → List Candle) (symbol : String)
    (st : StateMap) (force : Bool)
    (hev : check_first_green (macd_hist (fetch symbol (INTERVALS "4h"))) = true)
    (heq : svalEqInt ((st (key4h symbol)).getD (SVal.i 0))
        (candleTimeOf (fetch symbol (INTERVALS "4h"))) = true)
    (hf : force = false) :
    ((alignmentOf fetch symbol ≠ []
        ∧ truthy ((st (keyStrong symbol)).getD (SVal.b false)) = false) →
      (process_symbol fetch symbol st force).2 = [Msg.strong symbol (alignmentOf fetch symbol)]
      ∧ (process_symbol fetch symbol st force).1 (keyStrong symbol) = some (SVal.b true))
    ∧ ((alignmentOf fetch symbol = []
        ∨ truthy ((st (keyStrong symbol)).getD (SVal.b false)) = true) →
      process_symbol fetch symbol st force = (st, []))
    ∧ (∀ tf, tf ∈ alignmentOf fetch symbol ↔
        (tf ∈ (["1h", "15m"] : List String)
          ∧ (fetch symbol (INTERVALS tf)).isEmpty = false
          ∧ check_first_green (macd_hist (fetch symbol (INTERVALS tf))) = true)) := by
  have hcond : (!svalEqInt ((st (key4h symbol)).getD (SVal.i 0))
      (candleTimeOf (fetch symbol (INTERVALS "4h"))) || force) = false := by
    simp [heq, hf]
  have hkey := process_symbol_confirm_case fetch symbol st force hev hcond
  refine ⟨?_, ?_, ?_⟩
  · rintro ⟨ha, ht⟩
    have h1 : (alignmentOf fetch symbol).isEmpty = false := by
      cases hl : alignmentOf fetch symbol with
      | nil => exact absurd hl ha
      | cons x xs => rfl
    have hc : (!(alignmentOf fetch symbol).isEmpty
        && !truthy ((st (keyStrong symbol)).getD (SVal.b false))) = true := by
      simp [h1, ht]
    rw [hkey, if_pos hc]
    exact ⟨rfl, by simp [dictSet]⟩
  · intro h
    have hc : (!(alignmentOf fetch symbol).isEmpty
        && !truthy ((st (keyStrong symbol)).getD (SVal.b false))) = false := by
      rcases h with h | h <;> simp [h]
    rw [hkey, if_neg (by simp [hc])]
  · intro tf
    simp [alignmentOf, List.mem_filter]

/-- Witness for C5: primary event at the stored candle time 1000, 1h
aligned, 15m fetch empty, no prior escalation: one STRONG SIGNAL naming 1h
and the flag set. -/
theorem C5_witness :
    (process_symbol fetchConfirm "XUSDT"
        (dictSet emptyState (key4h "XUSDT") (SVal.i 1000)) false).2
      = [Msg.strong "XUSDT" (alignmentOf fetchConfirm "XUSDT")]
    ∧ (process_symbol fetchConfirm "XUSDT"
        (dictSet emptyState (key4h "XUSDT") (SVal.i 1000)) false).1 (keyStrong "XUSDT")
      = some (SVal.b true)
    ∧ alignmentOf fetchConfirm "XUSDT" = ["1h"] := by
  have hf4 : fetchConfirm "XUSDT" (INTERVALS "4h") = eventDf 1000 := by
    simp [fetchConfirm, INTERVALS]
  have hf1 : fetchConfirm "XUSDT" (INTERVALS "1h") = eventDf 500 := by
    simp [fetchConfirm, INTERVALS]
  have hf15 : fetchConfirm "XUSDT" (INTERVALS "15m") = [] := by
    simp [fetchConfirm, INTERVALS]
  have hev : check_first_green (macd_hist (fetchConfirm "XUSDT" (INTERVALS "4h"))) = true := by
    rw [hf4]; exact eventDf_green 1000
  have heq : svalEqInt (((dictSet emptyState (key4h "XUSDT") (SVal.i 1000))
      (key4h "XUSDT")).getD (SVal.i 0))
      (candleTimeOf (fetchConfirm "XUSDT" (INTERVALS "4h"))) = true := by
    rw [hf4]
    simp [dictSet, svalEqInt, eventDf_time]
  have hf1n : fetchConfirm "XUSDT" 60 = eventDf 500 := by simp [fetchConfirm]
  have hf15n : fetchConfirm "XUSDT" 15 = [] := by simp [fetchConfirm]
  have halign : alignmentOf fetchConfirm "XUSDT" = ["1h"] := by
    simp [alignmentOf, List.filter, INTERVALS, hf1n, hf15n, eventDf_green, eventDf_isEmpty]
  have h := C5_escalation fetchConfirm "XUSDT"
    (dictSet emptyState (key4h "XUSDT") (SVal.i 1000)) false hev heq rfl
  refine ⟨?_, ?_, halign⟩
  · exact (h.1 ⟨by rw [halign]; simp,
      by simp [dictSet, emptyState, (key4h_ne_keyStrong "XUSDT").symm, truthy]⟩).1
  · exact (h.1 ⟨by rw [halign]; simp,
      by simp [dictSet, emptyState, (key4h_ne_keyStrong "XUSDT").symm, truthy]⟩).2

/-- C3.  With the escalation flag stored true and no first green on the
primary series, the reconciliation emits nothing and its returned state has
the flag deleted (it reads false); but the scanner merges worker states with
dict.update, which cannot transport a deletion, so the accumulated cycle
state still holds the flag true: the clearing does not survive the merge. -/
theorem C3_clearing_lost_in_merge :
    (process_symbol fetchNoEvent "AAAUSDT"
        (dictSet emptyState (keyStrong "AAAUSDT") (SVal.b true)) false).2 = []
    ∧ (process_symbol fetchNoEvent "AAAUSDT"
        (dictSet emptyState (keyStrong "AAAUSDT") (SVal.b true)) false).1
        (keyStrong "AAAUSDT") = none
    ∧ truthy (((process_symbol fetchNoEvent "AAAUSDT"
        (dictSet emptyState (keyStrong "AAAUSDT") (SVal.b true)) false).1
        (keyStrong "AAAUSDT")).getD (SVal.b false)) = false
    ∧ (scanner_cycle fetchNoEvent ["AAAUSDT"]
        (dictSet emptyState (keyStrong "AAAUSDT") (SVal.b true)) false).1
        (keyStrong "AAAUSDT") = some (SVal.b true) := by
  have hf4 : fetchNoEvent "AAAUSDT" (INTERVALS "4h") = noEventDf := by
    simp [fetchNoEvent, INTERVALS]
  have hne : (fetchNoEvent "AAAUSDT" (INTERVALS "4h")).isEmpty = false := by
    rw [hf4]; rfl
  have hev : check_first_green (macd_hist (fetchNoEvent "AAAUSDT" (INTERVALS "4h"))) = false := by
    rw [hf4]; exact noEventDf_nogreen
  have hps := process_symbol_noevent_case fetchNoEvent "AAAUSDT"
    (dictSet emptyState (keyStrong "AAAUSDT") (SVal.b true)) false hne hev
  refine ⟨by rw [hps], by rw [hps]; simp [dictPop], by rw [hps]; simp [dictPop, truthy], ?_⟩
  simp [scanner_cycle, hps, dictUpdate, dictPop, dictSet]

/-- C6 counterexample.  Starting with the escalation flag true and the
stored candle time 1000, a cycle whose primary series shows a first green at
the new candle time 2000 (a Signal step that resets the flag) followed by a
cycle at the same candle with an aligned 1h series emits a second STRONG
SIGNAL, even though the primary condition was present in both cycles and
never became absent in between. -/
theorem C6_counterexample :
    truthy (((dictSet (dictSet emptyState (key4h "XYZUSDT") (SVal.i 1000))
        (keyStrong "XYZUSDT") (SVal.b true)) (keyStrong "XYZUSDT")).getD (SVal.b false)) = true
    ∧ check_first_green (macd_hist (fetchNew "XYZUSDT" (INTERVALS "4h"))) = true
    ∧ check_first_green (macd_hist (fetchNewConfirm "XYZUSDT" (INTERVALS "4h"))) = true
    ∧ (runSteps "XYZUSDT" (dictSet (dictSet emptyState (key4h "XYZUSDT") (SVal.i 1000))
          (keyStrong "XYZUSDT") (SVal.b true))
        [⟨fetchNew, false⟩, ⟨fetchNewConfirm, false⟩]).2
      = [Msg.signal "XYZUSDT", Msg.strong "XYZUSDT" ["1h"]] := by
  have hn4 : fetchNew "XYZUSDT" (INTERVALS "4h") = eventDf 2000 := by
    simp [fetchNew, INTERVALS]
  have hc4 : fetchNewConfirm "XYZUSDT" (INTERVALS "4h") = eventDf 2000 := by
    simp [fetchNewConfirm, INTERVALS]
  have hev1 : check_first_green (macd_hist (fetchNew "XYZUSDT" (INTERVALS "4h"))) = true := by
    rw [hn4]; exact eventDf_green 2000
  have hev2 : check_first_green (macd_hist (fetchNewConfirm "XYZUSDT" (INTERVALS "4h"))) = true := by
    rw [hc4]; exact eventDf_green 2000
  have hct1 : candleTimeOf (fetchNew "XYZUSDT" (INTERVALS "4h")) = 2000 := by
    rw [hn4]; exact eventDf_time 2000
  have hct2 : candleTimeOf (fetchNewConfirm "XYZUSDT" (INTERVALS "4h")) = 2000 := by
    rw [hc4]; exact eventDf_time 2000
  have hcond1 : (!svalEqInt (((dictSet (dictSet emptyState (key4h "XYZUSDT") (SVal.i 1000))
      (keyStrong "XYZUSDT") (SVal.b true)) (key4h "XYZUSDT")).getD (SVal.i 0))
      (candleTimeOf (fetchNew "XYZUSDT" (INTERVALS "4h"))) || false) = true := by
    rw [hct1]
    simp [dictSet, key4h_ne_keyStrong "XYZUSDT", svalEqInt]
  have hstep1 := process_symbol_signal_case fetchNew "XYZUSDT"
    (dictSet (dictSet emptyState (key4h "XYZUSDT") (SVal.i 1000))
      (keyStrong "XYZUSDT") (SVal.b true)) false hev1 hcond1
  rw [hct1] at hstep1
  have hcond2 : (!svalEqInt (((dictSet (dictSet (dictSet (dictSet emptyState
      (key4h "XYZUSDT") (SVal.i 1000)) (keyStrong "XYZUSDT") (SVal.b true))
      (key4h "XYZUSDT") (SVal.i 2000)) (keyStrong "XYZUSDT") (SVal.b false))
      (key4h "XYZUSDT")).getD (SVal.i 0))
      (candleTimeOf (fetchNewConfirm "XYZUSDT" (INTERVALS "4h"))) || false) = false := by
    rw [hct2]
    simp [dictSet, key4h_ne_keyStrong "XYZUSDT", svalEqInt]
  have hstep2 := process_symbol_confirm_case fetchNewConfirm "XYZUSDT"
    (dictSet (dictSet (dictSet (dictSet emptyState (key4h "XYZUSDT") (SVal.i 1000))
      (keyStrong "XYZUSDT") (SVal.b true)) (key4h "XYZUSDT") (SVal.i 2000))
      (keyStrong "XYZUSDT") (SVal.b false)) false hev2 hcond2
  have hc60 : fetchNewConfirm "XYZUSDT" 60 = eventDf 500 := by simp [fetchNewConfirm]
  have hc15 : fetchNewConfirm "XYZUSDT" 15 = [] := by simp [fetchNewConfirm]
  have halign : alignmentOf fetchNewConfirm "XYZUSDT" = ["1h"] := by
    simp [alignmentOf, List.filter, INTERVALS, hc60, hc15, eventDf_green, eventDf_isEmpty]
  have hflag : (!(alignmentOf fetchNewConfirm "XYZUSDT").isEmpty
      && !truthy (((dictSet (dictSet (dictSet (dictSet emptyState
        (key4h "XYZUSDT") (SVal.i 1000)) (keyStrong "XYZUSDT") (SVal.b true))
        (key4h "XYZUSDT") (SVal.i 2000)) (keyStrong "XYZUSDT") (SVal.b false))
        (keyStrong "XYZUSDT")).getD (SVal.b false))) = true := by
    rw [halign]
    simp [dictSet, truthy]
  rw [if_pos hflag] at hstep2
  rw [halign] at hstep2
  refine ⟨by simp [dictSet, truthy], hev1, hev2, ?_⟩
  simp only [runSteps]
  rw [hstep1, hstep2]
  rfl

/-- C6 as amended.  With the escalation flag true and the stored candle time
T, any sequence of cycles in each of which the primary first green persists
at the same candle time T with no force flag leaves the state untouched and
emits no message at all; the flag can only be cleared by a cycle without the
primary condition or by a fresh primary Signal at a new candle time or under
force. -/
theorem C6_escalation_suppressed (symbol : String) (st : StateMap) (T : ℤ)
    (hkey : st (key4h symbol) = some (SVal.i T))
    (hstrong : truthy ((st (keyStrong symbol)).getD (SVal.b false)) = true) :
    ∀ obs : List CycleObs,
      (∀ ob ∈ obs, ob.force_run = false
        ∧ check_first_green (macd_hist (ob.fetch symbol (INTERVALS "4h"))) = true
        ∧ candleTimeOf (ob.fetch symbol (INTERVALS "4h")) = T) →
      runSteps symbol st obs = (st, []) := by
  intro obs
  induction obs with
  | nil => intro _; rfl
  | cons ob rest ih =>
    intro hobs
    obtain ⟨hf, hev, hct⟩ := hobs ob (List.mem_cons_self ob rest)
    have hcond : (!svalEqInt ((st (key4h symbol)).getD (SVal.i 0))
        (candleTimeOf (ob.fetch symbol (INTERVALS "4h"))) || ob.force_run) = false := by
      rw [hkey, hct, hf]
      simp [svalEqInt]
    have hstep := process_symbol_confirm_case ob.fetch symbol st ob.force_run hev hcond
    have hflag : (!(alignmentOf ob.fetch symbol).isEmpty
        && !truthy ((st (keyStrong symbol)).getD (SVal.b false))) = false := by
      simp [hstrong]
    have hrest := ih fun o ho => hobs o (List.mem_cons_of_mem ob ho)
    simp only [runSteps]
    rw [hstep, if_neg (by simp [hflag])]
    simp [hrest]

/-- Witness for the amended C6: one same-candle cycle with the flag true
changes nothing and emits nothing. -/
theorem C6_witness :
    runSteps "XYZUSDT" (dictSet (dictSet emptyState (key4h "XYZUSDT") (SVal.i 1000))
        (keyStrong "XYZUSDT") (SVal.b true)) [⟨fetchSignalOnly, false⟩]
      = (dictSet (dictSet emptyState (key4h "XYZUSDT") (SVal.i 1000))
        (keyStrong "XYZUSDT") (SVal.b true), []) := by
  refine C6_escalation_suppressed "XYZUSDT" _ 1000 ?_ ?_ _ ?_
  · simp [dictSet, key4h_ne_keyStrong "XYZUSDT"]
  · simp [dictSet, truthy]
  · intro ob hob
    simp only [List.mem_singleton] at hob
    subst hob
    refine ⟨rfl, ?_, ?_⟩
    · simp [fetchSignalOnly, INTERVALS, eventDf_green]
    · simp [fetchSignalOnly, INTERVALS, eventDf_time]

/-- C7.  An empty primary fetch leaves the state of that symbol unchanged
with no message, the notifications of a cycle are exactly the concatenation
of the notifications of every symbol, and every message produced by any
symbol of the cycle appears among the notifications of the cycle. -/
theorem C7_empty_primary_fetch (fetch : String → ℕ → List Candle) (st : StateMap)
    (force : Bool) (symbols : List String) (symbol : String)
    (hempty : fetch symbol (INTERVALS "4h") = []) :
    process_symbol fetch symbol st force = (st, [])
    ∧ (scanner_cycle fetch symbols st force).2
        = (symbols.map fun s => (process_symbol fetch s st force).2).flatten
    ∧ (∀ s, s ∈ symbols → ∀ m, m ∈ (process_symbol fetch s st force).2 →
        m ∈ (scanner_cycle fetch symbols st force).2) := by
  refine ⟨process_symbol_empty_case fetch symbol st force hempty, ?_, ?_⟩
  · simp [scanner_cycle, List.map_map, Function.comp_def]
  · intro s hs m hm
    simp only [scanner_cycle, List.map_map, List.mem_flatten, List.mem_map, Function.comp_def]
    exact ⟨(process_symbol fetch s st force).2, ⟨s, hs, rfl⟩, hm⟩

/-- Witness for C7: EMPTYUSDT with an empty primary fetch contributes
nothing, while ABCUSDT in the same cycle still gets its Signal delivered. -/
theorem C7_witness :
    process_symbol fetchMixed "EMPTYUSDT" emptyState false = (emptyState, [])
    ∧ Msg.signal "ABCUSDT" ∈ (scanner_cycle fetchMixed ["EMPTYUSDT", "ABCUSDT"]
        emptyState false).2 := by
  have hE : fetchMixed "EMPTYUSDT" (INTERVALS "4h") = [] := by simp [fetchMixed]
  have h := C7_empty_primary_fetch fetchMixed emptyState false
    ["EMPTYUSDT", "ABCUSDT"] "EMPTYUSDT" hE
  have hA4 : fetchMixed "ABCUSDT" (INTERVALS "4h") = eventDf 1000 := by
    simp [fetchMixed, INTERVALS]
  have hevA : check_first_green (macd_hist (fetchMixed "ABCUSDT" (INTERVALS "4h"))) = true := by
    rw [hA4]; exact eventDf_green 1000
  have hcondA : (!svalEqInt ((emptyState (key4h "ABCUSDT")).getD (SVal.i 0))
      (candleTimeOf (fetchMixed "ABCUSDT" (INTERVALS "4h"))) || false) = true := by
    rw [hA4]
    simp [emptyState, svalEqInt, eventDf_time]
  have hstepA := process_symbol_signal_case fetchMixed "ABCUSDT" emptyState false hevA hcondA
  refine ⟨h.1, h.2.2 "ABCUSDT" (by simp) (Msg.signal "ABCUSDT") ?_⟩
  rw [hstepA]
  simp
